import Mathlib

set_option maxRecDepth 1024

/-!
Verification of the wy repository: a C++ wrapper (wy.hpp / wy.cpp) around the
wyhash hash function and the wyrand pseudo-random generator.

The wrapper code (struct wy::rand, its distribution methods, generate_stream,
and struct wy::internal::hash_imp) is embedded here directly from the source
files. The primitives declared in wyhash.h (wymix, wyrand, wy2u01, wy2u0k,
wy2gau, wyhash on bytes, wyhash64, make_secret) are not part of the sources
available here, only their callers are; those primitives are modelled from the
specification, and each such definition carries a doc comment starting with
the words Modelled from the spec.

Conventions of the embedding:
- uint64_t values are Nat with explicit reduction modulo 2^64 where the C
  arithmetic wraps;
- double values are modelled as exact rationals (the claims under study
  concern formula shape, draw counts and guards, not IEEE rounding);
- assert(cond) in the C++ source is modelled as an Option result: none is an
  assertion failure (fail fast), some is the value computed when the
  assertion holds;
- a C++ method that mutates the generator is a function rand -> result x rand;
  a const method on the hasher returns result x hash_imp with the object
  passed through unchanged, mirroring that a const method cannot mutate it.
-/

namespace wy

/-- Modelled from the spec: the mixing primitive of wyhash.h (file absent from
the sources; section 4.1 of the spec). Given two 64-bit inputs, compute the
full 128-bit product and return the bitwise XOR of its high and low 64-bit
halves (multiply-and-fold). Inputs are reduced modulo 2^64, as uint64_t
parameters are. -/
def wymix (a b : Nat) : Nat :=
  ((a % 18446744073709551616) * (b % 18446744073709551616)) % 18446744073709551616 ^^^ ((a % 18446744073709551616) * (b % 18446744073709551616)) / 18446744073709551616

/-- Modelled from the spec: the wyrand step of wyhash.h (file absent from the
sources; section 4.4 of the spec): advance the state by adding a fixed large
odd constant modulo 2^64, then produce the output by running the advanced
state through the mixing primitive against an odd constant derived from it by
XOR. Returns (output, new state). -/
def wyrand (state : Nat) : Nat × Nat :=
  ((wymix ((state + 0x2d358dccaa6c78a5) % 18446744073709551616)
      (((state + 0x2d358dccaa6c78a5) % 18446744073709551616) ^^^ 0x8bb84b93962eacc9)),
   (state + 0x2d358dccaa6c78a5) % 18446744073709551616)

/-- Modelled from the spec: wy2u01 of wyhash.h (file absent from the sources;
section 4.5 of the spec): scale a raw 64-bit draw into the unit interval by
dividing by 2^64. Doubles are modelled as exact rationals. -/
def wy2u01 (r : Nat) : ℚ := (r % 18446744073709551616 : Nat) / (18446744073709551616 : ℚ)

/-- Modelled from the spec: wy2u0k of wyhash.h (file absent from the sources;
section 4.5 of the spec): the bounded integer draw is the high 64 bits of the
64x64 to 128-bit product of the raw draw and k (Lemire-style scaling). -/
def wy2u0k (r k : Nat) : Nat := (r % 18446744073709551616) * (k % 18446744073709551616) / 18446744073709551616

/-- Modelled from the spec: wy2gau of wyhash.h (file absent from the sources;
section 4.5 of the spec): an approximate Gaussian with mean 0 and std 1,
a deterministic function of one raw draw (not Box-Muller, not a rejection
sampler); modelled as the central-limit sum of three 21-bit fields of the
draw, recentred to mean 0. Doubles are modelled as exact rationals. -/
def wy2gau (r : Nat) : ℚ :=
  ((r % 2097152 + r / 2097152 % 2097152 + r / 4398046511104 % 2097152 : Nat) : ℚ)
    / 1048576 - 3

/-- The generator of wy.hpp: struct wy::rand holds a single 64-bit state word.
The seeded constructor (wy.cpp line 15, rand::rand(uint64_t seed) : state(seed))
is the anonymous structure constructor rand.mk, which stores the seed as the
state unchanged. -/
structure rand where
  state : Nat
  deriving DecidableEq

/-- operator() of wy::rand (wy.cpp lines 23-26): return wyrand(&state).
Returns the drawn value together with the mutated generator. -/
def rand.next (r : rand) : Nat × rand :=
  ((wyrand r.state).1, ⟨(wyrand r.state).2⟩)

/-- uniform_dist() of wy::rand (wy.cpp lines 27-30):
return wy2u01(operator()()). -/
def rand.uniform_dist (r : rand) : ℚ × rand :=
  (wy2u01 (r.next).1, (r.next).2)

/-- uniform_dist(double min_value, double max_value) of wy::rand (wy.cpp lines
31-36): assert(max_value > min_value); return uniform_dist() * (max_value -
min_value) + min_value. The assert is modelled as the Option guard. -/
def rand.uniform_dist_range (r : rand) (min_value max_value : ℚ) :
    Option (ℚ × rand) :=
  if min_value < max_value then
    some ((r.uniform_dist).1 * (max_value - min_value) + min_value,
          (r.uniform_dist).2)
  else none

/-- uniform_dist(uint64_t max_value) of wy::rand (wy.cpp lines 37-40):
return wy2u0k(operator()(), max_value). Note that, unlike the two-argument
real uniform and the two-argument Gaussian, this method has no assert: it is
total. -/
def rand.uniform_dist_max (r : rand) (max_value : Nat) : Nat × rand :=
  (wy2u0k (r.next).1 max_value, (r.next).2)

/-- Modelled from the spec: the bounded integer draw as the spec describes it
(sections 4.5 and 7), with k = 0 invalid and failing fast. This definition
follows the words of the spec, for comparison with rand.uniform_dist_max,
which is embedded from the source. -/
def rand.uniform_dist_max_checked (r : rand) (max_value : Nat) :
    Option (Nat × rand) :=
  if max_value = 0 then none else some (r.uniform_dist_max max_value)

/-- gaussian_dist() of wy::rand (wy.cpp lines 41-44):
return wy2gau(operator()()). -/
def rand.gaussian_dist (r : rand) : ℚ × rand :=
  (wy2gau (r.next).1, (r.next).2)

/-- gaussian_dist(double mean, double std) of wy::rand (wy.cpp lines 45-50):
assert(std > 0); return gaussian_dist() * std + mean. The assert is modelled
as the Option guard. -/
def rand.gaussian_dist_ms (r : rand) (mean std : ℚ) : Option (ℚ × rand) :=
  if 0 < std then
    some ((r.gaussian_dist).1 * std + mean, (r.gaussian_dist).2)
  else none

/-- Little-endian byte image of a 64-bit word, as memcpy of a uint64_t
produces on a little-endian target (generate_stream, wy.hpp lines 166-187,
takes the WYHASH_LITTLE_ENDIAN branch there). -/
def toLEBytes (v : Nat) : List Nat :=
  [v % 256, v / 256 % 256, v / 65536 % 256, v / 16777216 % 256,
   v / 4294967296 % 256, v / 1099511627776 % 256,
   v / 281474976710656 % 256, v / 72057594037927936 % 256]

/-- Value of a little-endian byte list, the reinterpretation of stream bytes
as a 64-bit word used by the stream/raw equivalence property. -/
def fromLEBytes : List Nat → Nat
  | [] => 0
  | b :: bs => b + 256 * fromLEBytes bs

/-- The generation loop of generate_stream (wy.hpp lines 174-183): draw a
given number of 64-bit words by successive operator() calls, in order. -/
def rand.gen_words (r : rand) : Nat → List Nat × rand
  | 0 => ([], r)
  | n + 1 =>
    ((r.next).1 :: ((r.next).2.gen_words n).1, ((r.next).2.gen_words n).2)

/-- generate_stream(std::vector, size_t size) of wy::rand (wy.hpp lines
166-187): sizeOf64 = (size + 8 - 1) / 8 words are drawn, each written in
little-endian byte order, and the buffer is finally resized down to size
bytes (the truncation of the last partial word). -/
def rand.generate_stream (r : rand) (size : Nat) : List Nat × rand :=
  (((r.gen_words ((size + 8 - 1) / 8)).1.map toLEBytes).flatten.take size,
   (r.gen_words ((size + 8 - 1) / 8)).2)

/-- State of the generator after n successive operator() calls. -/
def iterState : rand → Nat → rand
  | r, 0 => r
  | r, n + 1 => ((iterState r n).next).2

/-- Output of the (i+1)-th operator() call of a generator starting at r
(0-based index i). -/
def nthOut (r : rand) (i : Nat) : Nat := ((iterState r i).next).1

/-- The hasher of wy.hpp: struct wy::internal::hash_imp holds a four-word
64-bit secret array (uint64_t secret[4]) and nothing else; the words are
modelled as four fields. -/
structure hash_imp where
  secret0 : Nat
  secret1 : Nat
  secret2 : Nat
  secret3 : Nat
  deriving DecidableEq

/-- hash_imp::hash_imp() of wy.cpp lines 54-55: the default constructor fills
the secret with the four fixed words of the wyhash default secret. -/
def hash_imp.mkDefault : hash_imp :=
  ⟨0xa0761d6478bd642f, 0xe7037ed1a0b428db, 0x8ebc6af09c88c6e3, 0x589965cc75374cc3⟩

/-- Little-endian read of n bytes of data at a byte offset, as the raw loads
of the hash algorithm perform on a little-endian target; bytes are reduced
modulo 256 as uint8_t values are. -/
def readLE (data : List Nat) (off : Nat) : Nat → Nat
  | 0 => 0
  | n + 1 => data.getD off 0 % 256 + 256 * readLE data (off + 1) n

/-- Modelled from the spec: the 16-byte block accumulation loop of the long
branch of the hash (section 4.2 of the spec): two running accumulator words,
each updated through the mixing primitive against the successive
secret-salted halves of each block. Arguments: byte offset, the two
accumulators, the number of full blocks still to process. -/
def wyAccum (s2 s3 : Nat) (data : List Nat) : Nat → Nat → Nat → Nat → Nat × Nat
  | _, a1, a2, 0 => (a1, a2)
  | i, a1, a2, n + 1 =>
    wyAccum s2 s3 data (i + 16)
      (wymix (readLE data i 8 ^^^ s2) a1)
      (wymix (readLE data (i + 8) 8 ^^^ s3) a2) n

/-- Modelled from the spec: the core byte hash of wyhash.h (file absent from
the sources; section 4.2 of the spec), hash(data, secret) -> u64, with the
length-dependent branches the spec lists: length 0 is a fixed mix of two
secret words; lengths 1-3 pack the first, middle and last byte by index
arithmetic into a small word; lengths 4-8 read the first and last 4 bytes as
two 32-bit little-endian words; lengths 9-16 read the first and last 8 bytes
as two 64-bit little-endian words; longer input is processed in 16-byte
blocks into two accumulators, the final partial block being the (possibly
overlapping) last 16 bytes; a finishing mix combines the two absorbed words,
the secret and the length. -/
def wyhashBytes (data : List Nat) (s0 s1 s2 s3 : Nat) : Nat :=
  if data.length = 0 then wymix s0 s1
  else if data.length ≤ 3 then
    wymix (data.length ^^^ s1)
      (wymix ((data.getD 0 0 % 256 * 65536 + data.getD (data.length / 2) 0 % 256 * 256
               + data.getD (data.length - 1) 0 % 256) ^^^ s2) s3)
  else if data.length ≤ 8 then
    wymix (data.length ^^^ s1)
      (wymix (readLE data 0 4 ^^^ s2) (readLE data (data.length - 4) 4 ^^^ s3))
  else if data.length ≤ 16 then
    wymix (data.length ^^^ s1)
      (wymix (readLE data 0 8 ^^^ s2) (readLE data (data.length - 8) 8 ^^^ s3))
  else
    wymix (data.length ^^^ s1)
      (wymix (readLE data (data.length - 16) 8
                ^^^ (wyAccum s2 s3 data 0 s0 s1 ((data.length - 1) / 16)).1)
             (readLE data (data.length - 8) 8
                ^^^ (wyAccum s2 s3 data 0 s0 s1 ((data.length - 1) / 16)).2))

/-- hash_imp::wyhash(const uint8_t* data, size_t len) of wy.cpp lines 64-67:
return ::wyhash(data, len, 0, secret). The method is const: the call returns
the digest and leaves the hasher unchanged, which the embedding makes
explicit by returning the hasher alongside the digest. -/
def hash_imp.wyhashCall (h : hash_imp) (data : List Nat) : Nat × hash_imp :=
  (wyhashBytes data h.secret0 h.secret1 h.secret2 h.secret3, h)

/-- Modelled from the spec: wyhash64 of wyhash.h (file absent from the
sources; section 4.2 of the spec), hash_u64(value, salt) -> u64, a cheaper
two-step mix for word-sized integer keys: two applications of the mixing
primitive to the value and the salt. -/
def wyhash64 (value salt : Nat) : Nat := wymix (wymix value salt) salt

/-- hash_imp::wyhash(uint64_t data) of wy.cpp lines 68-71:
return ::wyhash64(data, secret[0]). Only word 0 of the secret is passed. -/
def hash_imp.wyhashU64 (h : hash_imp) (number : Nat) : Nat :=
  wyhash64 number h.secret0

/-! Helper lemmas. -/

theorem wymix_lt (a b : Nat) : wymix a b < 18446744073709551616 := by
  have h64 : 18446744073709551616 = 2 ^ 64 := by norm_num
  have hpos : 0 < 18446744073709551616 := by norm_num
  unfold wymix
  rw [h64]
  refine Nat.xor_lt_two_pow ?_ ?_
  · rw [← h64]; exact Nat.mod_lt _ hpos
  · rw [← h64]
    exact Nat.div_lt_of_lt_mul
      (mul_lt_mul'' (Nat.mod_lt _ hpos) (Nat.mod_lt _ hpos)
        (Nat.zero_le _) (Nat.zero_le _))

theorem next_fst_lt (r : rand) : (r.next).1 < 18446744073709551616 := wymix_lt _ _

theorem fromLEBytes_toLEBytes (v : Nat) (h : v < 18446744073709551616) :
    fromLEBytes (toLEBytes v) = v := by
  simp only [toLEBytes, fromLEBytes]
  omega

theorem flatten_map_toLEBytes_length (ws : List Nat) :
    ((ws.map toLEBytes).flatten).length = 8 * ws.length := by
  induction ws with
  | nil => simp
  | cons w ws ih =>
    simp only [List.map_cons, List.flatten_cons, List.length_append, ih,
      List.length_cons, toLEBytes]
    simp
    omega

theorem iterState_comm : ∀ (n : Nat) (r : rand),
    iterState (r.next).2 n = ((iterState r n).next).2 := by
  intro n
  induction n with
  | zero => intro r; rfl
  | succ n ih =>
    intro r
    simp only [iterState]
    rw [ih r]

theorem nthOut_succ (r : rand) (i : Nat) : nthOut r (i + 1) = nthOut (r.next).2 i := by
  simp only [nthOut, iterState]
  rw [iterState_comm]

theorem gen_words_fst : ∀ (n : Nat) (r : rand),
    (r.gen_words n).1 = List.ofFn (fun i : Fin n => nthOut r i.val) := by
  intro n
  induction n with
  | zero => intro r; simp [rand.gen_words]
  | succ n ih =>
    intro r
    rw [List.ofFn_succ]
    simp only [Fin.val_succ, Fin.val_zero, nthOut_succ]
    simp only [rand.gen_words]
    rw [ih (r.next).2]
    rfl

theorem gen_words_snd : ∀ (n : Nat) (r : rand),
    (r.gen_words n).2 = iterState r n := by
  intro n
  induction n with
  | zero => intro r; rfl
  | succ n ih =>
    intro r
    simp only [rand.gen_words]
    rw [ih (r.next).2, iterState_comm]
    simp only [iterState]

/-! Claim theorems. -/

/-- Claim C1 (counterexample): the claim that uniform_dist(uint64_t) fails
fast at max_value = 0 is false on the code. At the concrete generator of seed
0, the spec-modelled checked operation fails (none), but the operation
embedded from wy.cpp lines 37-40, which has no assert, returns the value 0
(the high 64 bits of draw times 0) and has consumed one raw draw, as the
advanced state shows. -/
theorem uniform_int_zero_no_fail_cex :
    (rand.mk 0).uniform_dist_max_checked 0 = none ∧
    ((rand.mk 0).uniform_dist_max 0).1 = 0 ∧
    ((rand.mk 0).uniform_dist_max 0).2 = rand.mk 0x2d358dccaa6c78a5 := by
  refine ⟨rfl, ?_, ?_⟩
  · show wy2u0k ((rand.mk 0).next).1 0 = 0
    simp [wy2u0k]
  · rfl

/-- Claim C1 (amended): for every starting generator, uniform_dist(0) is not
rejected: the call consumes exactly one raw draw and returns 0, the result of
the unchecked Lemire scaling of the draw by 0. -/
theorem uniform_int_zero_unchecked (r : rand) :
    ((r.uniform_dist_max 0).1 = 0) ∧ ((r.uniform_dist_max 0).2 = iterState r 1) := by
  constructor
  · show wy2u0k (r.next).1 0 = 0
    simp [wy2u0k]
  · rfl

/-- Claim C2: for every starting state, the 16-byte stream of generate_stream,
reinterpreted as two little-endian 64-bit words, equals the pair of values of
two successive operator() calls from the same starting state. -/
theorem stream_raw_equivalence (r : rand) :
    fromLEBytes (((r.generate_stream 16).1).take 8) = (r.next).1 ∧
    fromLEBytes (((r.generate_stream 16).1).drop 8) = (((r.next).2).next).1 :=
  ⟨fromLEBytes_toLEBytes _ (next_fst_lt r),
   fromLEBytes_toLEBytes _ (next_fst_lt (r.next).2)⟩

/-- Claim C3: the seeded constructor stores exactly the seed as the state,
and the sequence of draws is a function of the state alone, so two generators
constructed from the same seed produce identical sequences of any length. -/
theorem seeded_determinism (s : Nat) :
    (rand.mk s).state = s ∧
    ∀ (r1 r2 : rand), r1.state = r2.state → ∀ n : Nat,
      List.ofFn (fun i : Fin n => nthOut r1 i.val)
        = List.ofFn (fun i : Fin n => nthOut r2 i.val) := by
  refine ⟨rfl, ?_⟩
  intro r1 r2 h n
  cases r1 with
  | mk s1 =>
    cases r2 with
    | mk s2 =>
      have h2 : s1 = s2 := h
      rw [h2]

theorem seeded_determinism_witness :
    (rand.mk 42).state = 42 ∧
    List.ofFn (fun i : Fin 3 => nthOut (rand.mk 42) i.val)
      = List.ofFn (fun i : Fin 3 => nthOut (rand.mk 42) i.val) :=
  ⟨(seeded_determinism 42).1,
   (seeded_determinism 42).2 (rand.mk 42) (rand.mk 42) rfl 3⟩

/-- Claim C4: when min_value < max_value, uniform_dist(min_value, max_value)
returns exactly min_value + (max_value - min_value) * u, where u is the value
of one uniform_dist() call on the current state, and the generator advances
as by that one raw draw; when max_value is not greater than min_value the
assertion fails (modelled as none). -/
theorem uniform_range_formula (r : rand) (lo hi : ℚ) :
    (lo < hi → r.uniform_dist_range lo hi =
      some (lo + (hi - lo) * (r.uniform_dist).1, (r.next).2)) ∧
    (hi ≤ lo → r.uniform_dist_range lo hi = none) := by
  constructor
  · intro h
    unfold rand.uniform_dist_range
    rw [if_pos h]
    simp only [Option.some.injEq, Prod.mk.injEq]
    exact ⟨by ring, rfl⟩
  · intro h
    unfold rand.uniform_dist_range
    rw [if_neg (not_lt.mpr h)]

theorem uniform_range_formula_witness :
    ((0 : ℚ) < 1 ∧ (rand.mk 3).uniform_dist_range 0 1 =
      some (0 + (1 - 0) * ((rand.mk 3).uniform_dist).1, ((rand.mk 3).next).2)) ∧
    ((1 : ℚ) ≤ 2 ∧ (rand.mk 3).uniform_dist_range 2 1 = none) :=
  ⟨⟨by norm_num, (uniform_range_formula (rand.mk 3) 0 1).1 (by norm_num)⟩,
   ⟨by norm_num, (uniform_range_formula (rand.mk 3) 2 1).2 (by norm_num)⟩⟩

/-- Claim C5: a generated stream has exactly the requested length; it is the
first size bytes of the little-endian images of the first ceil(size/8)
successive raw draws; the generator ends in the state reached after exactly
ceil(size/8) raw draws; and for size 0 the stream is empty and the generator
is unchanged (no draw is consumed). -/
theorem generate_stream_spec (r : rand) (n : Nat) :
    ((r.generate_stream n).1.length = n) ∧
    ((r.generate_stream n).1 =
      ((List.ofFn (fun i : Fin ((n + 7) / 8) => toLEBytes (nthOut r i.val))).flatten).take n) ∧
    ((r.generate_stream n).2 = iterState r ((n + 7) / 8)) ∧
    (r.generate_stream 0 = ([], r)) := by
  have hk : n + 8 - 1 = n + 7 := by omega
  refine ⟨?_, ?_, ?_, rfl⟩
  · show (((r.gen_words ((n + 8 - 1) / 8)).1.map toLEBytes).flatten.take n).length = n
    rw [hk, List.length_take, flatten_map_toLEBytes_length, gen_words_fst,
      List.length_ofFn]
    omega
  · show ((r.gen_words ((n + 8 - 1) / 8)).1.map toLEBytes).flatten.take n = _
    rw [hk, gen_words_fst, List.map_ofFn]
    rfl
  · show (r.gen_words ((n + 8 - 1) / 8)).2 = _
    rw [hk, gen_words_snd]

/-- Claim C6: when 0 < std, gaussian_dist(mean, std) returns exactly
gaussian_dist() * std + mean, where gaussian_dist() is computed from one raw
draw of the current state, and the generator advances as by that one draw;
when std is not positive the assertion fails (modelled as none). -/
theorem gaussian_ms_formula (r : rand) (mean std : ℚ) :
    (0 < std → r.gaussian_dist_ms mean std =
      some ((r.gaussian_dist).1 * std + mean, (r.next).2)) ∧
    (std ≤ 0 → r.gaussian_dist_ms mean std = none) := by
  constructor
  · intro h
    unfold rand.gaussian_dist_ms
    rw [if_pos h]
    rfl
  · intro h
    unfold rand.gaussian_dist_ms
    rw [if_neg (not_lt.mpr h)]

theorem gaussian_ms_formula_witness :
    ((0 : ℚ) < 2 ∧ (rand.mk 5).gaussian_dist_ms 1 2 =
      some (((rand.mk 5).gaussian_dist).1 * 2 + 1, ((rand.mk 5).next).2)) ∧
    ((0 : ℚ) ≤ 0 ∧ (rand.mk 5).gaussian_dist_ms 1 0 = none) :=
  ⟨⟨by norm_num, (gaussian_ms_formula (rand.mk 5) 1 2).1 (by norm_num)⟩,
   ⟨le_refl 0, (gaussian_ms_formula (rand.mk 5) 1 0).2 (le_refl 0)⟩⟩

/-- Claim C7: the byte-hash operation is a pure function of the secret and
the input bytes: a call leaves the hasher (its secret array) unchanged, and a
repeated call with the same data on the returned hasher yields the same
digest. -/
theorem hash_pure_frame (h : hash_imp) (data : List Nat) :
    ((h.wyhashCall data).2 = h) ∧
    (((h.wyhashCall data).2.wyhashCall data).1 = (h.wyhashCall data).1) :=
  ⟨rfl, rfl⟩

/-- Claim C8: every distribution operation advances the generator state by
exactly one raw draw: the state after each call equals the state after
exactly one operator() invocation (for the guarded operations, whenever the
assertion holds). -/
theorem one_draw_per_distribution (r : rand) (lo hi mean std : ℚ) (k : Nat) :
    ((r.uniform_dist).2 = iterState r 1) ∧
    (lo < hi → (r.uniform_dist_range lo hi).map Prod.snd = some (iterState r 1)) ∧
    ((r.uniform_dist_max k).2 = iterState r 1) ∧
    ((r.gaussian_dist).2 = iterState r 1) ∧
    (0 < std → (r.gaussian_dist_ms mean std).map Prod.snd = some (iterState r 1)) := by
  refine ⟨rfl, ?_, rfl, rfl, ?_⟩
  · intro h
    unfold rand.uniform_dist_range
    rw [if_pos h]
    rfl
  · intro h
    unfold rand.gaussian_dist_ms
    rw [if_pos h]
    rfl

theorem one_draw_per_distribution_witness :
    ((rand.mk 9).uniform_dist).2 = iterState (rand.mk 9) 1 ∧
    ((rand.mk 9).uniform_dist_range 0 1).map Prod.snd = some (iterState (rand.mk 9) 1) ∧
    ((rand.mk 9).uniform_dist_max 7).2 = iterState (rand.mk 9) 1 ∧
    ((rand.mk 9).gaussian_dist).2 = iterState (rand.mk 9) 1 ∧
    ((rand.mk 9).gaussian_dist_ms 0 1).map Prod.snd = some (iterState (rand.mk 9) 1) :=
  ⟨(one_draw_per_distribution (rand.mk 9) 0 1 0 1 7).1,
   (one_draw_per_distribution (rand.mk 9) 0 1 0 1 7).2.1 (by norm_num),
   (one_draw_per_distribution (rand.mk 9) 0 1 0 1 7).2.2.1,
   (one_draw_per_distribution (rand.mk 9) 0 1 0 1 7).2.2.2.1,
   (one_draw_per_distribution (rand.mk 9) 0 1 0 1 7).2.2.2.2 (by norm_num)⟩

/-- Claim C9: a default-constructed hasher holds exactly the fixed four-word
secret of wy.cpp lines 54-55. -/
theorem default_secret_constants :
    hash_imp.mkDefault.secret0 = 0xa0761d6478bd642f ∧
    hash_imp.mkDefault.secret1 = 0xe7037ed1a0b428db ∧
    hash_imp.mkDefault.secret2 = 0x8ebc6af09c88c6e3 ∧
    hash_imp.mkDefault.secret3 = 0x589965cc75374cc3 :=
  ⟨rfl, rfl, rfl, rfl⟩

/-- Claim C10: the 64-bit integer fast path depends only on word 0 of the
secret: two hashers whose secrets agree on word 0 produce the same digest for
every 64-bit input, whatever their other three secret words are. -/
theorem wyhash64_secret0_only (h1 h2 : hash_imp) (n : Nat)
    (hs : h1.secret0 = h2.secret0) : h1.wyhashU64 n = h2.wyhashU64 n := by
  unfold hash_imp.wyhashU64
  rw [hs]

theorem wyhash64_secret0_only_witness :
    (hash_imp.mk 1 2 3 4).secret0 = (hash_imp.mk 1 9 9 9).secret0 ∧
    (hash_imp.mk 1 2 3 4).wyhashU64 5 = (hash_imp.mk 1 9 9 9).wyhashU64 5 :=
  ⟨rfl, wyhash64_secret0_only (hash_imp.mk 1 2 3 4) (hash_imp.mk 1 9 9 9) 5 rfl⟩

end wy
